import Mathlib

/-!
Shallow embedding of the two source files of the repository
(`ollama-api.py` and `m1_performance_compare.py`) and proofs about them.

Modelling conventions:
* Python text is modelled as `List Char`; Python `float` arithmetic is
  modelled over `ℚ` (the numeric facts proved here are exact or carry an
  explicit tolerance, so this is faithful for the claims at hand).
* The file system for the single tracked file is a record `FS` holding the
  live file's content and the `.bak` sibling's content; reads and writes
  are modelled as always succeeding (I/O failure paths of the `except`
  handlers are an external concern).
* The HTTP generation collaborator is modelled at its boundary as a status
  code plus an optional decoded `response` string (`none` models a body
  that fails to decode as JSON).
* `statistics.normalvariate` draws are passed in as explicit rational
  parameters (one oracle per call site).
-/

/-- Model of Python `str.isspace` for the ASCII whitespace characters that
`str.strip()` removes. -/
def pySpace (c : Char) : Bool :=
  c = ' ' || c = '\t' || c = '\n' || c = '\r' || c = '\x0b' || c = '\x0c'

/-- Model of Python `str.strip()`: drop whitespace from both ends. -/
def pyStrip (l : List Char) : List Char :=
  ((l.dropWhile pySpace).reverse.dropWhile pySpace).reverse

/-- The character set of `strip('"\'.,;: ')` in `identify_critical_file`
(double quote, single quote, dot, comma, semicolon, colon, space). -/
def stripSet : List Char :=
  [Char.ofNat 34, Char.ofNat 39, '.', ',', ';', ':', ' ']

/-- Model of Python `str.strip('"\'.,;: ')`: drop those characters from both
ends. -/
def stripChars (l : List Char) : List Char :=
  ((l.dropWhile (stripSet.contains ·)).reverse.dropWhile (stripSet.contains ·)).reverse

/-- Model of Python `str.split('\n')`. -/
def splitNl : List Char → List (List Char)
  | [] => [[]]
  | c :: cs =>
    if c = '\n' then [] :: splitNl cs
    else
      match splitNl cs with
      | [] => [[c]]
      | s :: ss => (c :: s) :: ss

/-- Model of Python `file.readlines()` applied to a text: split after every
newline, keeping the newline at the end of each line; a final segment with
no trailing newline is kept as well. -/
def splitLinesKeepEnds : List Char → List (List Char)
  | [] => []
  | c :: cs =>
    if c = '\n' then ['\n'] :: splitLinesKeepEnds cs
    else
      match splitLinesKeepEnds cs with
      | [] => [[c]]
      | s :: ss => (c :: s) :: ss

/-- Model of the Python substring test `needle in hay`. -/
def containsSub (needle hay : List Char) : Bool :=
  hay.tails.any (fun t => needle.isPrefixOf t)

/-!
PathExtractor: the response-cleaning section of `identify_critical_file`
(`ollama-api.py`, lines 159-197).
-/

/-- State machine implementing `re.sub(r'<[^>]+>', '', raw)`: from each `<`,
if a `>` follows with at least one character in between, the whole span up to
and including that `>` is dropped; otherwise the characters are kept
literally.  The second argument is `none` outside a candidate span and
`some acc` when scanning a span opened by `<`, with `acc` the characters
seen since the `<`. -/
def stripTagsGo : List Char → Option (List Char) → List Char
  | [], none => []
  | [], some acc => '<' :: acc
  | c :: cs, none =>
    if c = '<' then stripTagsGo cs (some [])
    else c :: stripTagsGo cs none
  | c :: cs, some acc =>
    if c = '>' then
      if acc.isEmpty then '<' :: '>' :: stripTagsGo cs none
      else stripTagsGo cs none
    else stripTagsGo cs (some (acc ++ [c]))

/-- Step 1 of the cleaning pipeline: remove tag-like spans `<...>`. -/
def stripTags (l : List Char) : List Char := stripTagsGo l none

/-- The character class `[a-zA-Z0-9_/.-]` of the file-path regex. -/
def isPathChar (c : Char) : Bool :=
  c.isAlphanum || c = '_' || c = '/' || c = '.' || c = '-'

/-- A dot position `k` inside a run of path characters at which the greedy
match `[a-zA-Z0-9_/.-]+\.[a-zA-Z0-9]+` can place its literal dot: at least
one character before it, a dot at `k`, and an alphanumeric character right
after it. -/
def validDot (run : List Char) (k : Nat) : Bool :=
  decide (1 ≤ k) &&
    (match run[k]? with
     | some c => c = '.'
     | none => false) &&
    (match run[k + 1]? with
     | some c => c.isAlphanum
     | none => false)

/-- The dot chosen by greedy backtracking: the rightmost valid dot in the
run. -/
def lastValidDot (run : List Char) : Option Nat :=
  (List.range run.length).reverse.find? (validDot run)

/-- Attempt of `re.search(r'[a-zA-Z0-9_/.-]+\.[a-zA-Z0-9]+', s)` at the
start of `l` : the greedy first group runs to the rightmost valid dot of the
maximal path-character run, and the final group takes the maximal
alphanumeric run after the dot. -/
def matchAt (l : List Char) : Option (List Char) :=
  let run := l.takeWhile isPathChar
  match lastValidDot run with
  | some k => some (run.take k ++ '.' :: (run.drop (k + 1)).takeWhile Char.isAlphanum)
  | none => none

/-- Leftmost search: try a match at every start position, left to right. -/
def findPathMatch : List Char → Option (List Char)
  | [] => none
  | c :: cs =>
    match matchAt (c :: cs) with
    | some m => some m
    | none => findPathMatch cs

/-- The hard-coded fallback list `RENDERING_FILES` of
`identify_critical_file`. -/
def RENDERING_FILES : List (List Char) :=
  [("render/fluid.wgsl").data,
   ("render/fluidRender.ts").data,
   ("src/renderers/FluidRenderer.js").data,
   ("src/renderers/Renderer.js").data,
   ("src/shaders/render.wgsl").data]

/-- Step 2 of the cleaning pipeline: strip every line, keep the non-empty
ones and take the first, falling back to the whole stripped text. -/
def firstNonEmptyLine (clean : List Char) : List Char :=
  (((splitNl clean).map pyStrip).filter (fun l => !l.isEmpty)).headD (pyStrip clean)

/-- Steps 2-5 of the cleaning pipeline, applied after tag removal. -/
def extractClean (clean : List Char) : List Char :=
  let cleaned := stripChars (pyStrip (firstNonEmptyLine clean))
  match findPathMatch cleaned with
  | some m => m
  | none => RENDERING_FILES.getD 0 []

/-- PathExtractor: the whole cleaning pipeline of `identify_critical_file`
applied to the raw model text (with the hard-coded fallback list). -/
def extract (raw : List Char) : List Char := extractClean (stripTags raw)

/-- Whether an entire string matches the relative-path-with-extension shape
`[a-zA-Z0-9_/.-]+\.[a-zA-Z0-9]+` (one or more path characters, a literal
dot, one or more alphanumerics). -/
def isPathShape (m : List Char) : Bool :=
  (List.range m.length).any (fun k =>
    decide (1 ≤ k) && (m.take k).all isPathChar &&
      (match m[k]? with
       | some c => c = '.'
       | none => false) &&
      !(m.drop (k + 1)).isEmpty && (m.drop (k + 1)).all Char.isAlphanum)

/-- Whether some contiguous substring of `s` matches the
relative-path-with-extension shape. -/
def containsPathShape (s : List Char) : Bool :=
  s.tails.any (fun t => t.inits.any isPathShape)

/-!
The generation collaborator's boundary and `identify_critical_file`
(`ollama-api.py`).
-/

/-- Boundary model of the HTTP response of the generation service:
`status_code`, and the decoded `response` field of the JSON body
(`none` models a `json.JSONDecodeError`; an absent field is already
collapsed to the empty string by `data.get('response', '')`). -/
structure HttpResponse where
  status_code : Nat
  decodedBody : Option (List Char)

/-- Model of `encode_file`: the empty string for a missing file, the
base64-encoded content otherwise.  Base64 is modelled as the identity on
content; only (non)emptiness of the result is ever inspected, and
`base64.b64encode` preserves (non)emptiness. -/
def encode_file (content : Option (List Char)) : List Char :=
  match content with
  | some c => c
  | none => []

/-- The fallback scan `for fallback in RENDERING_FILES: if os.path.exists
(fallback): return fallback`. -/
def firstExisting (disk : List Char → Bool) : List (List Char) → Option (List Char)
  | [] => none
  | f :: fs => if disk f then some f else firstExisting disk fs

/-- Model of `identify_critical_file`.  `ctxC`/`ctxU` are the contents of the
two repository-context files (`none` = missing), `disk` says which paths
exist, `resp` is the generation service's response.  The second component
records whether the network request was performed. -/
def identify_critical_file (ctxC ctxU : Option (List Char)) (disk : List Char → Bool)
    (resp : HttpResponse) : Option (List Char) × Bool :=
  let compressed_content := encode_file ctxC
  let uncompressed_content := encode_file ctxU
  if compressed_content.isEmpty && uncompressed_content.isEmpty then
    (match firstExisting disk RENDERING_FILES with
     | some fallback => some fallback
     | none => some (RENDERING_FILES.getD 0 []), false)
  else
    (if resp.status_code = 200 then
       match resp.decodedBody with
       | some raw_result => some (extract raw_result)
       | none => some (RENDERING_FILES.getD 0 [])
     else some (RENDERING_FILES.getD 0 []), true)

/-!
The tracked file's state, `optimize_file_for_m1` (`ollama-api.py`) and the
backup/restore operations of `m1_performance_compare.py`.
-/

/-- The file-system state relevant to the tool: the live tracked file's
content and the content of its `.bak` sibling. -/
structure FS where
  live : List Char
  bak : List Char
deriving DecidableEq

/-- Backup creation, `shutil.copy2(file_path, BACKUP_FILE)`: copy the live
content to the `.bak` sibling (modelled as succeeding; a failure is only a
printed warning in the source). -/
def capture (fs : FS) : FS := { fs with bak := fs.live }

/-- The backtick character (used by the fenced-code-block pattern). -/
def backtick : Char := Char.ofNat 96

/-- The character class `\w` of `re.sub(r'^```\w*$', ...)`. -/
def isWordChar (c : Char) : Bool := c.isAlphanum || c = '_'

/-- A line matching `^```\w*$`: three backticks optionally followed by word
characters only. -/
def isFenceLine : List Char → Bool
  | b1 :: b2 :: b3 :: rest =>
    b1 = backtick && b2 = backtick && b3 = backtick && rest.all isWordChar
  | _ => false

/-- Response cleaning in `optimize_file_for_m1`: blank out every line that
matches `^```\w*$` (the second substitution `^```$` matches a subset of the
first and is subsumed), then strip surrounding whitespace. -/
def strip_code_fences (raw : List Char) : List Char :=
  pyStrip (List.intercalate ['\n']
    ((splitNl raw).map (fun line => if isFenceLine line then [] else line)))

/-- Model of `optimize_file_for_m1`: create the backup, abort if the file is
missing or its content is empty, send the request, and only on a 200
response with a decodable JSON body write the cleaned rewrite over the live
file.  Returns the success flag and the resulting file state. -/
def optimize_file_for_m1 (file_exists : Bool) (fs : FS) (resp : HttpResponse) :
    Bool × FS :=
  if !file_exists then (false, fs)
  else
    let fs1 := capture fs
    if fs1.live.isEmpty then (false, fs1)
    else if resp.status_code = 200 then
      match resp.decodedBody with
      | some raw_result => (true, { fs1 with live := strip_code_fences raw_result })
      | none => (false, fs1)
    else (false, fs1)

/-- Model of `temporarily_restore_original`: read the optimized content from
the live file, write the backup's content over it, and return the overwritten
optimized content (reads and writes modelled as succeeding). -/
def temporarily_restore_original (fs : FS) : List Char × FS :=
  (fs.live, { fs with live := fs.bak })

/-- Model of `restore_optimized`: write the given content over the live
file. -/
def restore_optimized (content : List Char) (fs : FS) : FS :=
  { fs with live := content }

/-!
BenchmarkRunner: `simulate_rendering_test` and `measure_performance`
(`m1_performance_compare.py`).
-/

/-- The constant `base_time = 16.67` of `simulate_rendering_test`. -/
def base_time : ℚ := 1667 / 100

/-- Model of `simulate_rendering_test`.  The two `statistics.normalvariate
(0, 1)` draws are passed in explicitly: `variation_draw` for the variation
term and `improvement_draw` for the improvement term (the latter is only
drawn on the optimized branch). -/
def simulate_rendering_test (is_original : Bool) (variation_draw improvement_draw : ℚ) : ℚ :=
  let variation := base_time * (1 / 10) * variation_draw
  if is_original then
    base_time + variation
  else
    let improvement := base_time * (2 / 10 + (1 / 10) * improvement_draw)
    (base_time - improvement) + variation

/-- The constant `NUM_TEST_RUNS = 5`. -/
def NUM_TEST_RUNS : Nat := 5

/-- One benchmarking loop: collect `n` samples from the measurement source
for the given variant; `none` models a raised exception at some run, in
which case the partial samples are discarded. -/
def collectSamples (sampler : Bool → Nat → Option ℚ) (is_original : Bool) :
    Nat → Option (List ℚ)
  | 0 => some []
  | n + 1 =>
    match collectSamples sampler is_original n, sampler is_original n with
    | some xs, some x => some (xs ++ [x])
    | _, _ => none

/-- Model of `measure_performance`.  The measurement source is a parameter;
`sampler b i = none` models `simulate_rendering_test` raising at run `i` of
variant `b`.  Mirrors the source exactly: swap to the original content,
bail out with `([], [])` when the returned optimized content is falsy
(i.e. the empty string), run the original loop, swap back, run the
optimized loop, and on an exception restore the optimized content and
return `([], [])`. -/
def measure_performance (sampler : Bool → Nat → Option ℚ) (fs : FS) :
    (List ℚ × List ℚ) × FS :=
  let p := temporarily_restore_original fs
  if p.1.isEmpty then (([], []), p.2)
  else
    match collectSamples sampler true NUM_TEST_RUNS with
    | none => (([], []), restore_optimized p.1 p.2)
    | some original_frame_times =>
      let fs2 := restore_optimized p.1 p.2
      match collectSamples sampler false NUM_TEST_RUNS with
      | none => (([], []), restore_optimized p.1 fs2)
      | some optimized_frame_times =>
        ((original_frame_times, optimized_frame_times), fs2)

/-!
ReportBuilder: `visualize_results` and the summary of `main`
(`m1_performance_compare.py`).
-/

/-- `statistics.mean` over rationals. -/
def mean (l : List ℚ) : ℚ := l.sum / (l.length : ℚ)

/-- The statistics computed by `visualize_results` (and re-computed by
`main`'s summary): average frame times, derived FPS, and the signed
improvement percentage. -/
structure PerformanceResults where
  avg_original : ℚ
  avg_optimized : ℚ
  fps_original : ℚ
  fps_optimized : ℚ
  improvement_pct : ℚ
deriving DecidableEq

/-- Model of `visualize_results`: return with no output when either sample
list is empty (`if not original_times or not optimized_times: return`),
otherwise build the report statistics.  The spec's `InsufficientDataError`
is modelled by the `none` result. -/
def visualize_results (original_times optimized_times : List ℚ) :
    Option PerformanceResults :=
  if original_times.isEmpty || optimized_times.isEmpty then none
  else
    some { avg_original := mean original_times
           avg_optimized := mean optimized_times
           fps_original := 1000 / mean original_times
           fps_optimized := 1000 / mean optimized_times
           improvement_pct :=
             (mean original_times - mean optimized_times) / mean original_times * 100 }

/-- The three verdict bands printed by `main`. -/
inductive Verdict where
  | significant
  | moderate
  | minor
deriving DecidableEq

/-- The verdict classification of `main`: `> 15` significant, `> 5`
moderate, otherwise minor. -/
def classify (improvement_pct : ℚ) : Verdict :=
  if improvement_pct > 15 then Verdict.significant
  else if improvement_pct > 5 then Verdict.moderate
  else Verdict.minor

/-!
ChangeAnalyzer: `difflib.unified_diff` (modelled after CPython's
`SequenceMatcher`, without the junk heuristics, which are inert for the
inputs considered here) and `compare_code_changes`
(`m1_performance_compare.py`).
-/

/-- A line of text, as an element of the sequences handed to the differ. -/
abbrev Line := List Char

/-- Length of the longest common prefix of two line sequences. -/
def commonPrefixLen : List Line → List Line → Nat
  | a :: as, b :: bs => if a = b then commonPrefixLen as bs + 1 else 0
  | _, _ => 0

/-- One candidate step of `find_longest_match`: the match at `(i, j)` has
size `commonPrefixLen (a.drop i) (b.drop j)`; it replaces the best match
only on strict improvement. -/
def flmStep (a b : List Line) (i : Nat) (best : Nat × Nat × Nat) (j : Nat) :
    Nat × Nat × Nat :=
  if best.2.2 < commonPrefixLen (a.drop i) (b.drop j) then
    (i, j, commonPrefixLen (a.drop i) (b.drop j))
  else best

/-- `SequenceMatcher.find_longest_match` over whole sequences: the longest
matching contiguous block `(i, j, size)`, ties broken by smallest `i`, then
smallest `j` (strict improvement while scanning in lexicographic order). -/
def find_longest_match (a b : List Line) : Nat × Nat × Nat :=
  (List.range a.length).foldl
    (fun best i => (List.range b.length).foldl (flmStep a b i) best)
    (0, 0, 0)

/-- `SequenceMatcher.get_matching_blocks` recursion (divide and conquer
around the longest match), with a fuel argument for structural
termination; the initial fuel in `matching_blocks` always suffices. -/
def matchingBlocksF : Nat → List Line → List Line → List (Nat × Nat × Nat)
  | 0, _, _ => []
  | fuel + 1, a, b =>
    let m := find_longest_match a b
    if m.2.2 = 0 then []
    else
      matchingBlocksF fuel (a.take m.1) (b.take m.2.1) ++
        (m ::
          (matchingBlocksF fuel (a.drop (m.1 + m.2.2)) (b.drop (m.2.1 + m.2.2))).map
            (fun x => (x.1 + m.1 + m.2.2, x.2.1 + m.2.1 + m.2.2, x.2.2)))

/-- `SequenceMatcher.get_matching_blocks`: the sorted matching blocks,
terminated by the sentinel `(len(a), len(b), 0)`. -/
def matching_blocks (a b : List Line) : List (Nat × Nat × Nat) :=
  matchingBlocksF (a.length + b.length + 1) a b ++ [(a.length, b.length, 0)]

/-- The opcode tags of `SequenceMatcher.get_opcodes`. -/
inductive DiffTag where
  | equal
  | replace
  | delete
  | insert
deriving DecidableEq

/-- An opcode `(tag, i1, i2, j1, j2)`. -/
abbrev Opcode := DiffTag × Nat × Nat × Nat × Nat

/-- The walk of `get_opcodes` over the matching blocks, tagging the gaps
before each block and the block itself. -/
def opcodesGo : Nat → Nat → List (Nat × Nat × Nat) → List Opcode
  | _, _, [] => []
  | i, j, (ai, bj, size) :: rest =>
    (if i < ai ∧ j < bj then [(DiffTag.replace, i, ai, j, bj)]
     else if i < ai then [(DiffTag.delete, i, ai, j, bj)]
     else if j < bj then [(DiffTag.insert, i, ai, j, bj)]
     else []) ++
      (if size ≠ 0 then [(DiffTag.equal, ai, ai + size, bj, bj + size)] else []) ++
      opcodesGo (ai + size) (bj + size) rest

/-- `SequenceMatcher.get_opcodes`. -/
def get_opcodes (a b : List Line) : List Opcode :=
  opcodesGo 0 0 (matching_blocks a b)

/-- `get_grouped_opcodes`: trim a leading equal opcode to `n = 3` context
lines. -/
def fixFirst : List Opcode → List Opcode
  | (DiffTag.equal, i1, i2, j1, j2) :: rest =>
    (DiffTag.equal, max i1 (i2 - 3), i2, max j1 (j2 - 3), j2) :: rest
  | codes => codes

/-- `get_grouped_opcodes`: trim a trailing equal opcode to `n = 3` context
lines (implemented on the reversed list). -/
def fixLastRev : List Opcode → List Opcode
  | (DiffTag.equal, i1, i2, j1, j2) :: rest =>
    (DiffTag.equal, i1, min i2 (i1 + 3), j1, min j2 (j1 + 3)) :: rest
  | codes => codes

/-- `get_grouped_opcodes`: trim a trailing equal opcode. -/
def fixLast (codes : List Opcode) : List Opcode :=
  (fixLastRev codes.reverse).reverse

/-- Whether a group consists of a single equal opcode (such a group is not
yielded by `get_grouped_opcodes`). -/
def isSingleEqual : List Opcode → Bool
  | [(DiffTag.equal, _, _, _, _)] => true
  | _ => false

/-- The grouping loop of `get_grouped_opcodes` with context `n = 3`: close
the current group at every equal opcode wider than `2 n` lines, and do not
yield a final group that is a single equal opcode. -/
def groupLoop : List Opcode → List Opcode → List (List Opcode)
  | group, [] =>
    if group.isEmpty || isSingleEqual group then [] else [group]
  | group, (tag, i1, i2, j1, j2) :: rest =>
    if tag = DiffTag.equal ∧ i2 - i1 > 6 then
      (group ++ [(tag, i1, min i2 (i1 + 3), j1, min j2 (j1 + 3))]) ::
        groupLoop [(tag, max i1 (i2 - 3), i2, max j1 (j2 - 3), j2)] rest
    else groupLoop (group ++ [(tag, i1, i2, j1, j2)]) rest

/-- `SequenceMatcher.get_grouped_opcodes` with context `n = 3`, including
the substitution of `[('equal', 0, 1, 0, 1)]` for an empty opcode list. -/
def get_grouped_opcodes (a b : List Line) : List (List Opcode) :=
  let codes := get_opcodes a b
  let codes := if codes.isEmpty then [(DiffTag.equal, 0, 1, 0, 1)] else codes
  groupLoop [] (fixLast (fixFirst codes))

/-- `difflib._format_range_unified`. -/
def format_range_unified (start stop : Nat) : List Char :=
  let beginning := start + 1
  let length := stop - start
  if length = 1 then (Nat.repr beginning).data
  else
    (Nat.repr (if length = 0 then beginning - 1 else beginning)).data ++
      ',' :: (Nat.repr length).data

/-- The body lines a single opcode contributes to a unified-diff hunk. -/
def renderOpcode (a b : List Line) : Opcode → List Line
  | (DiffTag.equal, i1, i2, _, _) =>
    ((a.drop i1).take (i2 - i1)).map (fun line => ' ' :: line)
  | (DiffTag.replace, i1, i2, j1, j2) =>
    ((a.drop i1).take (i2 - i1)).map (fun line => '-' :: line) ++
      ((b.drop j1).take (j2 - j1)).map (fun line => '+' :: line)
  | (DiffTag.delete, i1, i2, _, _) =>
    ((a.drop i1).take (i2 - i1)).map (fun line => '-' :: line)
  | (DiffTag.insert, _, _, j1, j2) =>
    ((b.drop j1).take (j2 - j1)).map (fun line => '+' :: line)

/-- One hunk of the unified diff: the `@@` header followed by the group's
lines. -/
def renderGroup (a b : List Line) (g : List Opcode) : List Line :=
  let first := g.headD (DiffTag.equal, 0, 0, 0, 0)
  let last := g.getLastD (DiffTag.equal, 0, 0, 0, 0)
  let file1 := format_range_unified first.2.1 last.2.2.1
  let file2 := format_range_unified first.2.2.2.1 last.2.2.2.2
  (("@@ -").data ++ file1 ++ (" +").data ++ file2 ++ (" @@").data) ::
    g.foldr (fun op acc => renderOpcode a b op ++ acc) []

/-- `difflib.unified_diff(a, b, fromfile='Original', tofile='M1 Optimized',
lineterm='')`: the file headers (only when at least one group exists)
followed by the rendered hunks. -/
def unified_diff (a b : List Line) : List Line :=
  let groups := get_grouped_opcodes a b
  if groups.isEmpty then []
  else
    ("--- Original").data :: ("+++ M1 Optimized").data ::
      groups.foldr (fun g acc => renderGroup a b g ++ acc) []

/-- The literal annotation marker `"M1 OPTIMIZED"`. -/
def M1_MARKER : List Char := ("M1 OPTIMIZED").data

/-- Model of `compare_code_changes`, applied to the two file contents:
join the diff lines with newlines, re-split, count lines starting with `+`
(but not `+++`), `-` (but not `---`), and `@@`, and separately collect the
stripped lines of the new text containing the marker.  Returns
`(additions, deletions, changes, m1_optimizations)`. -/
def compare_code_changes (original optimized : List Char) :
    Nat × Nat × Nat × List (List Char) :=
  let original_lines := splitLinesKeepEnds original
  let optimized_lines := splitLinesKeepEnds optimized
  let diff := unified_diff original_lines optimized_lines
  let diff_text := List.intercalate ['\n'] diff
  let dlines := splitNl diff_text
  let additions :=
    (dlines.filter (fun l => l.take 1 = ['+'] && !(l.take 3 = ['+', '+', '+']))).length
  let deletions :=
    (dlines.filter (fun l => l.take 1 = ['-'] && !(l.take 3 = ['-', '-', '-']))).length
  let changes := (dlines.filter (fun l => l.take 2 = ['@', '@'])).length
  let m1_optimizations :=
    (optimized_lines.filter (fun line => containsSub M1_MARKER line)).map pyStrip
  (additions, deletions, changes, m1_optimizations)

/-!
Helper lemmas: a small library about prefixes, suffixes and contiguous
substrings of character lists, used to reason about the cleaning pipeline.
-/

/-- The empty list is a contiguous substring of any list. -/
theorem nil_inf (l : List Char) : [] <:+: l := ⟨[], l, rfl⟩

/-- A prefix is a contiguous substring. -/
theorem inf_of_pre {a b : List Char} (h : a <+: b) : a <:+: b := by
  obtain ⟨t, ht⟩ := h
  exact ⟨[], t, by simpa using ht⟩

/-- A suffix is a contiguous substring. -/
theorem inf_of_suf {a b : List Char} (h : a <:+ b) : a <:+: b := by
  obtain ⟨u, hu⟩ := h
  exact ⟨u, [], by simpa using hu⟩

/-- A prefix of a suffix is a contiguous substring. -/
theorem inf_of_pre_suf {a b c : List Char} (h1 : a <+: b) (h2 : b <:+ c) : a <:+: c := by
  obtain ⟨t, ht⟩ := h1
  obtain ⟨u, hu⟩ := h2
  exact ⟨u, t, by rw [← hu, ← ht, List.append_assoc]⟩

/-- A contiguous substring survives consing on the left. -/
theorem inf_cons {s l : List Char} (c : Char) (h : s <:+: l) : s <:+: c :: l := by
  obtain ⟨u, v, huv⟩ := h
  exact ⟨c :: u, v, by simp [huv]⟩

/-- `takeWhile` yields a prefix. -/
theorem takeWhile_pre (p : Char → Bool) : ∀ l : List Char, l.takeWhile p <+: l := by
  intro l
  induction l with
  | nil => exact ⟨[], rfl⟩
  | cons c cs ih =>
    cases h : p c with
    | true =>
      obtain ⟨t, ht⟩ := ih
      exact ⟨t, by simp [List.takeWhile_cons, h, ht]⟩
    | false => exact ⟨c :: cs, by simp [List.takeWhile_cons, h]⟩

/-- `dropWhile` yields a suffix. -/
theorem dropWhile_suf (p : Char → Bool) : ∀ l : List Char, l.dropWhile p <:+ l := by
  intro l
  induction l with
  | nil => exact ⟨[], rfl⟩
  | cons c cs ih =>
    cases h : p c with
    | true =>
      obtain ⟨u, hu⟩ := ih
      exact ⟨c :: u, by simp [List.dropWhile_cons, h, hu]⟩
    | false => exact ⟨[], by simp [List.dropWhile_cons, h]⟩

/-- Dropping from both ends (the common shape of `pyStrip` and
`stripChars`) yields a contiguous substring. -/
theorem strip_ends_inf (p : Char → Bool) (l : List Char) :
    ((l.dropWhile p).reverse.dropWhile p).reverse <:+: l := by
  have h1 : l.dropWhile p <:+ l := dropWhile_suf p l
  obtain ⟨u, hu⟩ := dropWhile_suf p (l.dropWhile p).reverse
  have h2 : ((l.dropWhile p).reverse.dropWhile p).reverse <+: l.dropWhile p := by
    refine ⟨u.reverse, ?_⟩
    have := congrArg List.reverse hu
    simpa using this
  exact inf_of_pre_suf h2 h1

/-- `pyStrip` yields a contiguous substring. -/
theorem pyStrip_inf (l : List Char) : pyStrip l <:+: l := strip_ends_inf pySpace l

/-- `stripChars` yields a contiguous substring. -/
theorem stripChars_inf (l : List Char) : stripChars l <:+: l :=
  strip_ends_inf (stripSet.contains ·) l

/-- Unfolding: `splitNl` at a newline. -/
theorem splitNl_cons_nl (cs : List Char) : splitNl ('\n' :: cs) = [] :: splitNl cs := by
  simp [splitNl]

/-- Unfolding: `splitNl` at a non-newline character, given the tail's
segments. -/
theorem splitNl_cons_ne {c : Char} (hc : c ≠ '\n') {cs : List Char}
    {s0 : List Char} {ss0 : List (List Char)} (h : splitNl cs = s0 :: ss0) :
    splitNl (c :: cs) = (c :: s0) :: ss0 := by
  simp [splitNl, hc, h]

/-- `splitNl` never returns the empty list of segments. -/
theorem splitNl_ne_nil : ∀ l : List Char, splitNl l ≠ [] := by
  intro l
  induction l with
  | nil => simp [splitNl]
  | cons c cs ih =>
    by_cases h : c = '\n'
    · subst h; simp [splitNl_cons_nl]
    · cases h2 : splitNl cs with
      | nil => exact absurd h2 ih
      | cons s ss => simp [splitNl_cons_ne h h2]

/-- The first segment of `splitNl` is a prefix of the text. -/
theorem splitNl_head_pre :
    ∀ (l : List Char) s ss, splitNl l = s :: ss → s <+: l := by
  intro l
  induction l with
  | nil =>
    intro s ss h
    simp only [splitNl] at h
    injection h with h1 h2
    exact h1 ▸ ⟨[], rfl⟩
  | cons c cs ih =>
    intro s ss h
    by_cases hc : c = '\n'
    · subst hc
      rw [splitNl_cons_nl] at h
      injection h with h1 h2
      exact h1 ▸ ⟨'\n' :: cs, rfl⟩
    · cases h2 : splitNl cs with
      | nil => exact absurd h2 (splitNl_ne_nil cs)
      | cons s0 ss0 =>
        rw [splitNl_cons_ne hc h2] at h
        injection h with h1 h2'
        obtain ⟨t, ht⟩ := ih s0 ss0 h2
        exact h1 ▸ ⟨t, by simp [← ht]⟩

/-- Every segment of `splitNl` is a contiguous substring of the text. -/
theorem inf_of_mem_splitNl :
    ∀ (l : List Char) s, s ∈ splitNl l → s <:+: l := by
  intro l
  induction l with
  | nil =>
    intro s hs
    simp only [splitNl, List.mem_singleton] at hs
    exact hs ▸ nil_inf []
  | cons c cs ih =>
    intro s hs
    by_cases hc : c = '\n'
    · subst hc
      rw [splitNl_cons_nl] at hs
      rcases List.mem_cons.mp hs with rfl | hs
      · exact nil_inf _
      · exact inf_cons '\n' (ih s hs)
    · cases h2 : splitNl cs with
      | nil => exact absurd h2 (splitNl_ne_nil cs)
      | cons s0 ss0 =>
        rw [splitNl_cons_ne hc h2] at hs
        rcases List.mem_cons.mp hs with rfl | hs
        · obtain ⟨t, ht⟩ := splitNl_head_pre cs s0 ss0 h2
          exact inf_of_pre ⟨t, by simp [← ht]⟩
        · exact inf_cons c (ih s (h2 ▸ List.mem_cons_of_mem s0 hs))

/-- The first non-empty stripped line is a contiguous substring of the
cleaned text. -/
theorem firstNonEmptyLine_inf (clean : List Char) :
    firstNonEmptyLine clean <:+: clean := by
  unfold firstNonEmptyLine
  cases h : (((splitNl clean).map pyStrip).filter fun l => !l.isEmpty) with
  | nil => simpa [h] using pyStrip_inf clean
  | cons a tl =>
    have ha : a ∈ ((splitNl clean).map pyStrip).filter fun l => !l.isEmpty := by
      rw [h]; exact List.mem_cons_self a tl
    obtain ⟨seg, hseg, rfl⟩ := List.mem_map.mp (List.mem_of_mem_filter ha)
    simp only [h, List.headD_cons]
    exact (pyStrip_inf seg).trans (inf_of_mem_splitNl clean seg hseg)

/-!
Claim theorems.
-/

/-- C1: evaluation of `measure_performance` at the failing input.  When the
tracked (optimized) file's content is the empty string and the backup holds
`"A"`, the Python truthiness test `if not optimized_content` fires after
`temporarily_restore_original` has already overwritten the live file with
the backup's content, so the call returns `([], [])` but leaves the live
file holding `"A"` — not the optimized (empty) content it held immediately
before the call, contradicting the claimed invariant. -/
theorem C1_empty_optimized_leaves_original :
    measure_performance (fun _ _ => some 1) { live := [], bak := ("A").data } =
      (([], []), { live := ("A").data, bak := ("A").data }) ∧
      ("A").data ≠ ([] : List Char) := by
  constructor
  · rfl
  · decide

/-- C2: for every file state, `capture` (copy live over the backup), then
`temporarily_restore_original` (write backup over live, returning the
overwritten optimized content), then `restore_optimized` with that returned
content leaves the live file bit-identical to its content immediately
before `capture`. -/
theorem C2_capture_restore_reinstate (fs : FS) :
    (restore_optimized (temporarily_restore_original (capture fs)).1
        (temporarily_restore_original (capture fs)).2).live = fs.live := rfl

/-- C5: `visualize_results` (the ReportBuilder) produces no report at all
whenever the optimized-sample sequence is empty, even if the
original-sample sequence is non-empty; the spec's `InsufficientDataError`
is the `none` result here. -/
theorem C5_empty_optimized_no_report (original_times : List ℚ) :
    visualize_results original_times [] = none := by
  simp [visualize_results]

/-- C6: with original samples `[20, 20, 20]` and optimized samples
`[15, 15, 15]`, the report computes improvement percentage `25`, the
verdict band is "significant" (`25 > 15`), and the optimized throughput
`1000 / 15` is within `0.01` of `66.67`. -/
theorem C6_scenario :
    ∃ r : PerformanceResults,
      visualize_results [20, 20, 20] [15, 15, 15] = some r ∧
        r.improvement_pct = 25 ∧
        classify r.improvement_pct = Verdict.significant ∧
        |r.fps_optimized - 6667 / 100| ≤ 1 / 100 := by
  refine ⟨_, rfl, ?_, ?_, ?_⟩
  · norm_num [mean]
  · norm_num [mean, classify]
  · rw [abs_le]
    constructor <;> norm_num [mean]

/-- C7: for an existing, readable, non-empty tracked file, a non-200 status
or a JSON-undecodable body makes `optimize_file_for_m1` report failure and
leaves the tracked file's content exactly as it was — the write step is
never reached. -/
theorem C7_failure_no_mutation (fs : FS) (resp : HttpResponse)
    (hcontent : fs.live ≠ [])
    (hfail : resp.status_code ≠ 200 ∨ resp.decodedBody = none) :
    (optimize_file_for_m1 true fs resp).1 = false ∧
      (optimize_file_for_m1 true fs resp).2.live = fs.live := by
  rcases hfail with h | h
  · simp [optimize_file_for_m1, capture, hcontent, h]
  · by_cases hs : resp.status_code = 200 <;>
      simp [optimize_file_for_m1, capture, hcontent, h, hs]

/-- Witness for C7 at a concrete failing response. -/
theorem C7_failure_no_mutation_witness :
    (optimize_file_for_m1 true { live := ("x").data, bak := [] }
        { status_code := 500, decodedBody := some [] }).1 = false ∧
      (optimize_file_for_m1 true { live := ("x").data, bak := [] }
        { status_code := 500, decodedBody := some [] }).2.live = ("x").data :=
  C7_failure_no_mutation _ _ (by decide) (Or.inl (by decide))

/-- C10: when both repository-context files are missing,
`identify_critical_file` performs no network request (second component
`false`) and returns `some` of the first fallback entry existing on disk,
or the fallback list's first entry when none exists — never `none`. -/
theorem C10_missing_context_fallback (disk : List Char → Bool) (resp : HttpResponse) :
    identify_critical_file none none disk resp =
      (some ((firstExisting disk RENDERING_FILES).getD (RENDERING_FILES.getD 0 [])),
        false) := by
  unfold identify_critical_file encode_file
  cases h : firstExisting disk RENDERING_FILES <;> simp [h]

/-- Samples collected from an always-succeeding measurement source all come
from that source. -/
theorem collectSamples_mem {sampler : Bool → Nat → Option ℚ} {b : Bool} :
    ∀ {n : Nat} {xs : List ℚ}, collectSamples sampler b n = some xs →
      ∀ x ∈ xs, ∃ i, sampler b i = some x := by
  intro n
  induction n with
  | zero =>
    intro xs h x hx
    simp only [collectSamples, Option.some.injEq] at h
    subst h
    simp at hx
  | succ n ih =>
    intro xs h x hx
    rw [collectSamples] at h
    cases h1 : collectSamples sampler b n with
    | none => rw [h1] at h; simp at h
    | some ys =>
      cases h2 : sampler b n with
      | none => rw [h1, h2] at h; simp at h
      | some y =>
        rw [h1, h2] at h
        simp only [Option.some.injEq] at h
        subst h
        rcases List.mem_append.mp hx with hx | hx
        · exact ih h1 x hx
        · rw [List.mem_singleton] at hx
          exact hx ▸ ⟨n, h2⟩

/-- Positivity of the simulated sample under bounded standard-normal
draws. -/
theorem sim_pos {b : Bool} {v w : ℚ} (hv : |v| < 4) (hw : |w| < 4) :
    0 < simulate_rendering_test b v w := by
  have hv' := abs_lt.mp hv
  have hw' := abs_lt.mp hw
  cases b <;>
    simp only [simulate_rendering_test, base_time, if_true, if_false,
      Bool.false_eq_true, ite_false, ite_true] <;>
    linarith [hv'.1, hv'.2, hw'.1, hw'.2]

/-- C9 amended: every timing sample produced by
`simulate_rendering_test` is positive provided each standard-normal draw
has absolute value below 4, and consequently every sample in the lists
returned by `measure_performance` driven by such draws is positive.
(Unbounded draws can make a sample zero or negative, see the
counterexample.) -/
theorem C9_bounded_draws_positive (gv gi : Bool → Nat → ℚ)
    (hb : ∀ b i, |gv b i| < 4 ∧ |gi b i| < 4) (fs : FS) :
    ((measure_performance
        (fun b i => some (simulate_rendering_test b (gv b i) (gi b i))) fs).1.1.all
          (fun x => decide (0 < x)) = true) ∧
    ((measure_performance
        (fun b i => some (simulate_rendering_test b (gv b i) (gi b i))) fs).1.2.all
          (fun x => decide (0 < x)) = true) := by
  set sampler := fun b i => some (simulate_rendering_test b (gv b i) (gi b i)) with hsampler
  have key : ∀ (b : Bool) (xs : List ℚ), collectSamples sampler b NUM_TEST_RUNS = some xs →
      xs.all (fun x => decide (0 < x)) = true := by
    intro b xs h
    rw [List.all_eq_true]
    intro x hx
    obtain ⟨i, hi⟩ := collectSamples_mem h x hx
    simp only [hsampler, Option.some.injEq] at hi
    simpa [← hi] using sim_pos (hb b i).1 (hb b i).2
  by_cases hl : fs.live.isEmpty
  · simp [measure_performance, temporarily_restore_original, hl]
  · cases h1 : collectSamples sampler true NUM_TEST_RUNS with
    | none => simp [measure_performance, temporarily_restore_original, hl, h1]
    | some o =>
      cases h2 : collectSamples sampler false NUM_TEST_RUNS with
      | none => simp [measure_performance, temporarily_restore_original, hl, h1, h2]
      | some p =>
        simp only [measure_performance, temporarily_restore_original, hl, h1, h2,
          Bool.false_eq_true, if_false]
        exact ⟨key true o h1, key false p h2⟩

/-- Witness for C9 at concrete zero draws and a non-empty tracked file. -/
theorem C9_bounded_draws_positive_witness :
    ((measure_performance (fun b _ => some (simulate_rendering_test b 0 0))
        { live := ("x").data, bak := [] }).1.1.all (fun x => decide (0 < x)) = true) ∧
    ((measure_performance (fun b _ => some (simulate_rendering_test b 0 0))
        { live := ("x").data, bak := [] }).1.2.all (fun x => decide (0 < x)) = true) :=
  C9_bounded_draws_positive (fun _ _ => 0) (fun _ _ => 0)
    (fun _ _ => by norm_num) _

/-- C9 counterexample: the claim fails as stated — for the draw −10 of the
variation term, the original-variant sample of `simulate_rendering_test` is
exactly 0, which is not positive (larger-magnitude draws make it
negative). -/
theorem C9_counterexample :
    simulate_rendering_test true (-10) 0 = 0 ∧
      ¬ 0 < simulate_rendering_test true (-10) 0 := by
  constructor <;> norm_num [simulate_rendering_test, base_time]

/-- A fold over a list stays at a fixed point of the step function. -/
theorem foldl_fixed {α β : Type} (f : β → α → β) (b : β) :
    ∀ l : List α, (∀ x ∈ l, f b x = b) → l.foldl f b = b := by
  intro l
  induction l with
  | nil => intro _; rfl
  | cons x xs ih =>
    intro h
    rw [List.foldl_cons, h x (List.mem_cons_self x xs)]
    exact ih (fun y hy => h y (List.mem_cons_of_mem x hy))

/-- The common prefix of a sequence with itself is the whole sequence. -/
theorem commonPrefixLen_self : ∀ l : List Line, commonPrefixLen l l = l.length := by
  intro l
  induction l with
  | nil => rfl
  | cons a as ih => simp [commonPrefixLen, ih]

/-- The common prefix is no longer than the first sequence. -/
theorem commonPrefixLen_le : ∀ a b : List Line, commonPrefixLen a b ≤ a.length := by
  intro a
  induction a with
  | nil => intro b; cases b <;> simp [commonPrefixLen]
  | cons x xs ih =>
    intro b
    cases b with
    | nil => simp [commonPrefixLen]
    | cons y ys =>
      by_cases h : x = y
      · simp only [commonPrefixLen, if_pos h, List.length_cons]
        exact Nat.add_le_add_right (ih ys) 1
      · simp [commonPrefixLen, h]

/-- Once the best match of the self-comparison has the full length, no
candidate improves it. -/
theorem flmStep_keep (l : List Line) (i : Nat) (best : Nat × Nat × Nat)
    (h : l.length ≤ best.2.2) (j : Nat) : flmStep l l i best j = best := by
  unfold flmStep
  rw [if_neg]
  have h1 : commonPrefixLen (l.drop i) (l.drop j) ≤ l.length := by
    calc commonPrefixLen (l.drop i) (l.drop j) ≤ (l.drop i).length := commonPrefixLen_le _ _
    _ ≤ l.length := by simp
  omega

/-- The very first candidate of the self-comparison already has the full
length. -/
theorem flmStep_zero (l : List Line) (hl : 0 < l.length) :
    flmStep l l 0 (0, 0, 0) 0 = (0, 0, l.length) := by
  unfold flmStep
  simp [commonPrefixLen_self, hl]

/-- `find_longest_match` of a sequence with itself is the full-length match
at the origin. -/
theorem flm_self (l : List Line) : find_longest_match l l = (0, 0, l.length) := by
  cases l with
  | nil => rfl
  | cons a as =>
    unfold find_longest_match
    rw [show (a :: as).length = as.length + 1 from rfl, List.range_succ_eq_map]
    rw [List.foldl_cons]
    show List.foldl _ (List.foldl (flmStep (a :: as) (a :: as) 0) (0, 0, 0)
        (0 :: List.map Nat.succ (List.range as.length))) _ = _
    rw [List.foldl_cons, flmStep_zero (a :: as) (by simp)]
    rw [foldl_fixed (flmStep (a :: as) (a :: as) 0) _ _
      (fun j _ => flmStep_keep _ 0 _ le_rfl j)]
    exact foldl_fixed _ _ _
      (fun i _ => foldl_fixed _ _ _ (fun j _ => flmStep_keep _ i _ le_rfl j))

/-- The block recursion on two empty sequences yields no blocks. -/
theorem matchingBlocksF_nil : ∀ fuel, matchingBlocksF fuel [] [] = [] := by
  intro fuel
  cases fuel with
  | zero => rfl
  | succ f => rfl

/-- The matching blocks of a sequence with itself: the full block (when
non-empty) and the sentinel. -/
theorem matching_blocks_self (l : List Line) :
    matching_blocks l l =
      (if l.length = 0 then [] else [(0, 0, l.length)]) ++ [(l.length, l.length, 0)] := by
  unfold matching_blocks
  rw [show l.length + l.length + 1 = (l.length + l.length) + 1 from rfl]
  rw [matchingBlocksF]
  rw [flm_self]
  by_cases h : l.length = 0
  · simp [h]
  · simp only [h, if_neg h, if_false]
    simp [List.drop_length, matchingBlocksF_nil, Nat.zero_add]

/-- The opcodes of a sequence with itself: a single equal opcode (or none
for the empty sequence). -/
theorem get_opcodes_self (l : List Line) :
    get_opcodes l l =
      if l.length = 0 then [] else [(DiffTag.equal, 0, l.length, 0, l.length)] := by
  unfold get_opcodes
  rw [matching_blocks_self]
  by_cases h : l.length = 0
  · simp [h, opcodesGo]
  · simp [h, opcodesGo]

/-- `get_grouped_opcodes` of a sequence with itself yields no groups: the
only candidate group is a single equal opcode, which is not yielded. -/
theorem get_grouped_opcodes_self (l : List Line) : get_grouped_opcodes l l = [] := by
  simp only [get_grouped_opcodes]
  rw [get_opcodes_self]
  by_cases h : l.length = 0
  · simp [h, fixFirst, fixLast, fixLastRev, groupLoop, isSingleEqual]
  · simp only [h, List.isEmpty_cons, Bool.false_eq_true, if_false]
    simp only [fixFirst, fixLast, fixLastRev, List.reverse_cons, List.reverse_nil,
      List.nil_append]
    rw [groupLoop, if_neg (by rintro ⟨-, h2⟩; omega)]
    rw [groupLoop]
    simp [isSingleEqual]

/-- The unified diff of a text with itself is empty. -/
theorem unified_diff_self (l : List Line) : unified_diff l l = [] := by
  unfold unified_diff
  rw [get_grouped_opcodes_self]
  rfl

/-- A filter by an everywhere-false predicate is empty. -/
theorem filter_false_nil {α : Type} {p : α → Bool} :
    ∀ l : List α, (∀ x ∈ l, p x = false) → l.filter p = [] := by
  intro l h
  induction l with
  | nil => rfl
  | cons x xs ih =>
    rw [List.filter_cons]
    simp only [h x (List.mem_cons_self x xs), Bool.false_eq_true, if_false]
    exact ih (fun y hy => h y (List.mem_cons_of_mem x hy))

/-- C8 amended: for every text `t` none of whose lines contains the literal
marker `"M1 OPTIMIZED"`, `compare_code_changes t t` yields zero added
lines, zero removed lines, zero changed chunks and an empty annotation
list.  (For a text containing the marker the three counts are still zero
but the annotation list collects the marker lines, see the
counterexample.) -/
theorem C8_no_marker_analyze_self (t : List Char)
    (h : ∀ line ∈ splitLinesKeepEnds t, containsSub M1_MARKER line = false) :
    compare_code_changes t t = (0, 0, 0, []) := by
  simp only [compare_code_changes]
  rw [unified_diff_self, filter_false_nil _ h]
  rfl

/-- Witness for C8 at a concrete marker-free text. -/
theorem C8_no_marker_analyze_self_witness :
    compare_code_changes (("hello\nworld").data) (("hello\nworld").data) = (0, 0, 0, []) :=
  C8_no_marker_analyze_self _ (by decide)

/-- C8 counterexample: for a text whose single line contains the marker,
`compare_code_changes t t` does not return an empty annotation list, so the
claim fails for arbitrary `t` (the counts are zero but the annotation list
holds the marker line). -/
theorem C8_counterexample :
    ¬ compare_code_changes (("x // M1 OPTIMIZED\n").data) (("x // M1 OPTIMIZED\n").data)
        = (0, 0, 0, []) := by
  decide

/-- Elements picked by `takeWhile` satisfy the predicate. -/
theorem mem_takeWhile_pred (p : Char → Bool) :
    ∀ (l : List Char) (x : Char), x ∈ List.takeWhile p l → p x = true := by
  intro l
  induction l with
  | nil => intro x hx; simp at hx
  | cons c cs ih =>
    intro x hx
    rw [List.takeWhile_cons] at hx
    cases h : p c with
    | true =>
      rw [h] at hx
      simp only [if_pos] at hx
      rcases List.mem_cons.mp hx with rfl | hx
      · exact h
      · exact ih x hx
    | false => rw [h] at hx; simp at hx

/-- A successful match attempt at the start of `l` returns a path-shaped
prefix of `l`. -/
theorem matchAt_spec {l m : List Char} (h : matchAt l = some m) :
    isPathShape m = true ∧ m <+: l := by
  simp only [matchAt] at h
  set run := l.takeWhile isPathChar with hrun
  cases hfind : lastValidDot run with
  | none => rw [hfind] at h; simp at h
  | some k =>
    rw [hfind] at h
    simp only [Option.some.injEq] at h
    subst h
    have hv := List.find?_some hfind
    simp only [validDot, Bool.and_eq_true, decide_eq_true_eq] at hv
    obtain ⟨⟨hk1, hdot⟩, halnum⟩ := hv
    obtain ⟨cdot, hrk, hcdot⟩ :
        ∃ c, run[k]? = some c ∧ c = '.' := by
      cases hrk : run[k]? with
      | none => rw [hrk] at hdot; simp at hdot
      | some c => rw [hrk] at hdot; simp at hdot; exact ⟨c, rfl, hdot⟩
    obtain ⟨c2, hrk2, hc2⟩ :
        ∃ c, run[k + 1]? = some c ∧ c.isAlphanum = true := by
      cases hrk2 : run[k + 1]? with
      | none => rw [hrk2] at halnum; simp at halnum
      | some c => rw [hrk2] at halnum; exact ⟨c, rfl, halnum⟩
    subst hcdot
    have hklen : k < run.length := by
      by_contra hcon
      rw [List.getElem?_eq_none (Nat.le_of_not_lt hcon)] at hrk
      cases hrk
    have hklen2 : k + 1 < run.length := by
      by_contra hcon
      rw [List.getElem?_eq_none (Nat.le_of_not_lt hcon)] at hrk2
      cases hrk2
    have hgetk : run[k] = '.' := by
      have h1 := List.getElem?_eq_getElem hklen
      rw [hrk] at h1
      exact (Option.some.inj h1).symm
    have hgetk2 : run[k + 1] = c2 := by
      have h1 := List.getElem?_eq_getElem hklen2
      rw [hrk2] at h1
      exact (Option.some.inj h1).symm
    have hdropk : run.drop k = '.' :: run.drop (k + 1) := by
      rw [List.drop_eq_getElem_cons hklen, hgetk]
    have hdropk2 : run.drop (k + 1) = c2 :: run.drop (k + 2) := by
      rw [List.drop_eq_getElem_cons hklen2, hgetk2]
    set C := (run.drop (k + 1)).takeWhile Char.isAlphanum with hC
    have hCpre : C <+: run.drop (k + 1) := takeWhile_pre _ _
    have hCne : C ≠ [] := by
      rw [hC, hdropk2, List.takeWhile_cons, hc2]
      simp
    have htake_len : (run.take k).length = k := by
      rw [List.length_take]
      omega
    have hm_pre_run : run.take k ++ '.' :: C <+: run := by
      obtain ⟨t, ht⟩ := hCpre
      refine ⟨t, ?_⟩
      calc (run.take k ++ '.' :: C) ++ t
          = run.take k ++ '.' :: (C ++ t) := by simp
        _ = run.take k ++ run.drop k := by rw [ht, ← hdropk]
        _ = run := List.take_append_drop k run
    constructor
    · -- the returned string is path-shaped
      rw [isPathShape, List.any_eq_true]
      set m := run.take k ++ '.' :: C with hm
      have hmlen : m.length = k + 1 + C.length := by
        rw [hm, List.length_append, htake_len, List.length_cons]
        omega
      refine ⟨k, List.mem_range.mpr (by omega), ?_⟩
      have htake_m : m.take k = run.take k := by
        rw [hm, List.take_left' htake_len]
      have hget_m : m[k]? = some '.' := by
        rw [hm, List.getElem?_append_right (le_of_eq htake_len), htake_len]
        simp
      have hdrop_m : m.drop (k + 1) = C := by
        have hm2 : m = (run.take k ++ ['.']) ++ C := by rw [hm]; simp
        rw [hm2, List.drop_left' (by simp [htake_len])]
      simp only [Bool.and_eq_true, decide_eq_true_eq]
      refine ⟨⟨⟨⟨hk1, ?_⟩, ?_⟩, ?_⟩, ?_⟩
      · -- take is all path characters
        rw [htake_m, List.all_eq_true]
        intro x hx
        exact mem_takeWhile_pred isPathChar l x
          (hrun ▸ List.mem_of_mem_take hx)
      · rw [hget_m]
        decide
      · rw [hdrop_m]
        simpa using hCne
      · rw [hdrop_m, hC, List.all_eq_true]
        intro x hx
        exact mem_takeWhile_pred Char.isAlphanum (run.drop (k + 1)) x hx
    · -- the returned string is a prefix of `l`
      exact hm_pre_run.trans (hrun ▸ takeWhile_pre isPathChar l)

/-- A successful leftmost search returns a path-shaped contiguous substring
of the text. -/
theorem findPathMatch_spec :
    ∀ {s m : List Char}, findPathMatch s = some m →
      isPathShape m = true ∧ m <:+: s := by
  intro s
  induction s with
  | nil => intro m h; simp [findPathMatch] at h
  | cons c cs ih =>
    intro m h
    rw [findPathMatch] at h
    cases hm : matchAt (c :: cs) with
    | some m0 =>
      rw [hm] at h
      simp only [Option.some.injEq] at h
      subst h
      obtain ⟨h1, h2⟩ := matchAt_spec hm
      exact ⟨h1, inf_of_pre h2⟩
    | none =>
      rw [hm] at h
      obtain ⟨h1, h2⟩ := ih h
      exact ⟨h1, inf_cons c h2⟩

/-- A path-shaped string is non-empty. -/
theorem shape_ne_nil {m : List Char} (h : isPathShape m = true) : m ≠ [] := by
  intro hnil
  subst hnil
  simp [isPathShape] at h

/-- A path-shaped contiguous substring makes `containsPathShape` true. -/
theorem contains_of_shape_inf {m s : List Char} (hsh : isPathShape m = true)
    (hinf : m <:+: s) : containsPathShape s = true := by
  obtain ⟨t, hpre, hsuf⟩ := List.infix_iff_prefix_suffix.mp hinf
  rw [containsPathShape, List.any_eq_true]
  refine ⟨t, (List.mem_tails _ _).mpr hsuf, ?_⟩
  rw [List.any_eq_true]
  exact ⟨m, (List.mem_inits _ _).mpr hpre, hsh⟩

/-- The fully cleaned first line is a contiguous substring of the
tag-stripped text. -/
theorem cleaned_inf (clean : List Char) :
    stripChars (pyStrip (firstNonEmptyLine clean)) <:+: clean :=
  ((stripChars_inf _).trans (pyStrip_inf _)).trans (firstNonEmptyLine_inf clean)

/-- C4 amended: `extract` always returns a non-empty string (and, being a
total function of its input, never raises); and for all raw text whose
TAG-STRIPPED form contains no path-shaped substring, `extract` returns
`fallback_list[0]`.  (The condition must be on the tag-stripped text:
removing a tag span can join the surrounding characters into a new
path-shaped substring that the raw text did not contain, see the
counterexample.) -/
theorem C4_nonempty_and_fallback (raw : List Char) :
    extract raw ≠ [] ∧
      (containsPathShape (stripTags raw) = false →
        extract raw = ("render/fluid.wgsl").data) := by
  constructor
  · simp only [extract, extractClean]
    cases h : findPathMatch (stripChars (pyStrip (firstNonEmptyLine (stripTags raw)))) with
    | some m =>
      simp only [h]
      exact shape_ne_nil (findPathMatch_spec h).1
    | none =>
      simp only [h]
      decide
  · intro hcp
    simp only [extract, extractClean]
    cases h : findPathMatch (stripChars (pyStrip (firstNonEmptyLine (stripTags raw)))) with
    | some m =>
      exfalso
      obtain ⟨hshape, hinf⟩ := findPathMatch_spec h
      have h2 := contains_of_shape_inf hshape (hinf.trans (cleaned_inf (stripTags raw)))
      rw [hcp] at h2
      cases h2
    | none =>
      simp only [h]
      decide

/-- Witness for C4 at a concrete path-free input. -/
theorem C4_nonempty_and_fallback_witness :
    extract (("no path here").data) ≠ [] ∧
      extract (("no path here").data) = ("render/fluid.wgsl").data :=
  ⟨(C4_nonempty_and_fallback (("no path here").data)).1,
    (C4_nonempty_and_fallback (("no path here").data)).2 (by decide)⟩

/-- C4 counterexample: the raw text `a<x>.b` contains no path-shaped
substring (the character before its dot is `>`), yet removing the tag span
`<x>` joins `a` and `.b` into `a.b`, which the search then returns instead
of the fallback — so the claim as stated over the raw text fails. -/
theorem C4_counterexample :
    containsPathShape (("a<x>.b").data) = false ∧
      extract (("a<x>.b").data) = ("a.b").data ∧
      extract (("a<x>.b").data) ≠ ("render/fluid.wgsl").data := by
  refine ⟨by decide, by decide, by decide⟩

/-- Unfolding: the tag machine on a non-`<` character in normal state. -/
theorem go_cons_ne {c : Char} (h : c ≠ '<') (cs : List Char) :
    stripTagsGo (c :: cs) none = c :: stripTagsGo cs none := by
  simp [stripTagsGo, h]

/-- Unfolding: the tag machine on `<` enters span state. -/
theorem go_open (cs : List Char) :
    stripTagsGo ('<' :: cs) none = stripTagsGo cs (some []) := by
  simp [stripTagsGo]

/-- Scanning a `>`-free span body followed by `>` drops the whole span
(provided the span body is non-empty overall). -/
theorem go_tag : ∀ t : List Char, (∀ c ∈ t, c ≠ '>') →
    ∀ (acc rest : List Char), acc ++ t ≠ [] →
      stripTagsGo (t ++ '>' :: rest) (some acc) = stripTagsGo rest none := by
  intro t
  induction t with
  | nil =>
    intro _ acc rest hne
    have hacc : acc ≠ [] := by simpa using hne
    have hacc2 : acc.isEmpty = false := by
      cases acc with
      | nil => exact absurd rfl hacc
      | cons a as => rfl
    simp [stripTagsGo, hacc2]
  | cons c t ih =>
    intro ht acc rest hne
    have hc : c ≠ '>' := ht c (List.mem_cons_self c t)
    rw [List.cons_append]
    rw [show stripTagsGo (c :: (t ++ '>' :: rest)) (some acc) =
        stripTagsGo (t ++ '>' :: rest) (some (acc ++ [c])) from by
      simp [stripTagsGo, hc]]
    exact ih (fun x hx => ht x (List.mem_cons_of_mem c hx)) (acc ++ [c]) rest (by simp)

/-- The tag machine copies a `<`-free block verbatim in normal state. -/
theorem go_clear : ∀ w : List Char, (∀ c ∈ w, c ≠ '<') →
    ∀ rest : List Char, stripTagsGo (w ++ rest) none = w ++ stripTagsGo rest none := by
  intro w
  induction w with
  | nil => intro _ rest; rfl
  | cons c w ih =>
    intro h rest
    have hc : c ≠ '<' := h c (List.mem_cons_self c w)
    rw [List.cons_append, go_cons_ne hc, ih (fun x hx => h x (List.mem_cons_of_mem c hx)) rest]
    rfl

/-- Whitespace characters are not `<`. -/
theorem pySpace_ne_lt {c : Char} (h : pySpace c = true) : c ≠ '<' := by
  intro hc
  subst hc
  exact absurd h (by decide)

/-- Tag removal on a `<think>`-wrapped whitespace span followed by the path
line: only the two tags are removed, the span body survives. -/
theorem stripTags_think (w : List Char) (hw : ∀ c ∈ w, pySpace c = true) :
    stripTags (("<think>").data ++ w ++ ("</think>\nfoo/bar.ts").data) =
      w ++ ("\nfoo/bar.ts").data := by
  have hw' : ∀ c ∈ w, c ≠ '<' := fun c hc => pySpace_ne_lt (hw c hc)
  have hdecomp : ("<think>").data ++ w ++ ("</think>\nfoo/bar.ts").data
      = '<' :: (("think").data ++ '>' :: (w ++ ("</think>\nfoo/bar.ts").data)) := by
    simp
  rw [stripTags, hdecomp, go_open,
    go_tag (("think").data) (by decide) [] _ (by decide),
    go_clear w hw']
  rw [show stripTagsGo (("</think>\nfoo/bar.ts").data) none = ("\nfoo/bar.ts").data from by
    decide]

/-- `splitNl` splits around an explicit newline between two blocks. -/
theorem splitNl_append_nl : ∀ a b : List Char,
    splitNl (a ++ '\n' :: b) = splitNl a ++ splitNl b := by
  intro a
  induction a with
  | nil =>
    intro b
    rw [List.nil_append, splitNl_cons_nl]
    rfl
  | cons c a ih =>
    intro b
    by_cases hc : c = '\n'
    · subst hc
      rw [List.cons_append, splitNl_cons_nl, splitNl_cons_nl, ih]
      rfl
    · cases h2 : splitNl a with
      | nil => exact absurd h2 (splitNl_ne_nil a)
      | cons s0 ss0 =>
        rw [List.cons_append,
          splitNl_cons_ne hc (show splitNl (a ++ '\n' :: b) = s0 :: (ss0 ++ splitNl b) from by
            rw [ih b, h2]; rfl),
          splitNl_cons_ne hc h2]
        rfl

/-- Stripping an all-whitespace segment yields the empty string. -/
theorem pyStrip_nil_of_space (l : List Char) (h : ∀ c ∈ l, pySpace c = true) :
    pyStrip l = [] := by
  have h1 : l.dropWhile pySpace = [] := by
    induction l with
    | nil => rfl
    | cons c cs ih =>
      rw [List.dropWhile_cons, h c (List.mem_cons_self c cs)]
      exact ih (fun x hx => h x (List.mem_cons_of_mem c hx))
  rw [pyStrip, h1]
  rfl

/-- C3 amended: for all raw text consisting of a `<think>`-wrapped span
with only whitespace between the tags, followed on the next line by
`foo/bar.ts`, `extract` returns exactly `foo/bar.ts`, and the tags never
leak into the returned path.  (With non-whitespace reasoning text between
the tags, that text — not the tags — becomes the first non-empty line and
the path line is ignored, see the counterexample.) -/
theorem C3_tagged_reasoning_path (w : List Char) (hw : ∀ c ∈ w, pySpace c = true) :
    extract (("<think>").data ++ w ++ ("</think>\nfoo/bar.ts").data) =
      ("foo/bar.ts").data := by
  rw [extract, stripTags_think w hw]
  simp only [extractClean]
  have hsplit : splitNl (w ++ ("\nfoo/bar.ts").data) =
      splitNl w ++ [("foo/bar.ts").data] := by
    rw [show ("\nfoo/bar.ts").data = '\n' :: ("foo/bar.ts").data from rfl,
      splitNl_append_nl]
    rw [show splitNl (("foo/bar.ts").data) = [("foo/bar.ts").data] from by decide]
  have hlines :
      (((splitNl (w ++ ("\nfoo/bar.ts").data)).map pyStrip).filter
        (fun l => !l.isEmpty)) = [("foo/bar.ts").data] := by
    rw [hsplit, List.map_append, List.filter_append]
    have h1 : ((splitNl w).map pyStrip).filter (fun l => !l.isEmpty) = [] := by
      apply filter_false_nil
      intro x hx
      obtain ⟨seg, hseg, rfl⟩ := List.mem_map.mp hx
      have hsegsp : ∀ c ∈ seg, pySpace c = true := by
        intro c hc
        obtain ⟨u, v, huv⟩ := inf_of_mem_splitNl w seg hseg
        refine hw c ?_
        rw [← huv]
        exact List.mem_append.mpr (Or.inl (List.mem_append.mpr (Or.inr hc)))
      rw [pyStrip_nil_of_space seg hsegsp]
      rfl
    rw [h1]
    decide
  simp only [firstNonEmptyLine]
  rw [hlines, List.headD_cons]
  decide

/-- Witness for C3 with a single-space reasoning span. -/
theorem C3_tagged_reasoning_path_witness :
    extract (("<think>").data ++ [' '] ++ ("</think>\nfoo/bar.ts").data) =
      ("foo/bar.ts").data :=
  C3_tagged_reasoning_path [' '] (by decide)

/-- C3 counterexample: with non-whitespace reasoning text between the tags,
the tag removal keeps the text between them, the first non-empty line
becomes `pondering deeply`, which has no path shape, and `extract` falls
back to `render/fluid.wgsl` instead of returning `foo/bar.ts` — the claim
as stated fails. -/
theorem C3_counterexample :
    extract (("<think>pondering deeply</think>\nfoo/bar.ts").data) =
        ("render/fluid.wgsl").data ∧
      extract (("<think>pondering deeply</think>\nfoo/bar.ts").data) ≠
        ("foo/bar.ts").data := by
  constructor <;> decide
